import Mathlib

/-!
Verification of the cpp-badger memory substrate.

Shallow embedding of:
- the memtable `Arena` (a block bump allocator over a `std::multiset`
  ordered by available space) from `include/cpp-badger/memtable/arena.hh`
  and `src/memory/arena.cc`;
- the `Cleanable` cleanup chain and `SharedCleanablePtr` reference
  counting from `include/cpp-badger/util/cleanable.hh` and
  `src/util/cleanable.cc`;
- `Slice` hex encoding/decoding from `src/util/slice.cc`.

Machine integers (`uintptr_t`/`size_t`, LP64) are modelled as `Nat` with
explicit `% 2 ^ 64` where the C++ computation can wrap.  Addresses are
abstract numbers handed out by a model of the backing allocator
(mimalloc), which returns fresh pairwise-disjoint regions and fails with
`std::bad_alloc` when its address range is exhausted.  Fallible C++
paths (exceptions, `bool` returns with out-parameters) are `Option`.
-/

namespace Badger

/-- Value space of `uintptr_t` / `size_t` on LP64. -/
def U : Nat := 2 ^ 64

/-- `Arena::AlignUp` (memtable/arena.hh): the C++ computes
`(address + alignment - 1) & ~(alignment - 1)` in `uintptr_t`
arithmetic.  For `0 < alignment ≤ 2 ^ 64` the complement
`~(alignment - 1)` is the value `2 ^ 64 - alignment`, and the addition
wraps modulo `2 ^ 64`. -/
def AlignUp (address alignment : Nat) : Nat :=
  ((address + alignment - 1) % U) &&& ((U - alignment) % U)

/-- `Arena::MemoryBlock`: a memory extent with a bump cursor,
`block_start_ ≤ current_ptr_ ≤ block_end_` intended. -/
structure MemoryBlock where
  block_start : Nat
  current_ptr : Nat
  block_end : Nat
deriving DecidableEq

/-- `MemoryBlock::Available()`: `BlockEnd() - CurrentPtr()` as `char*`
subtraction (non-negative for in-range cursors). -/
def MemoryBlock.Available (b : MemoryBlock) : Nat :=
  b.block_end - b.current_ptr

/-- `MemoryBlock::Peek(size, alignment)`: align the cursor up, then
check `aligned + size > end` (computed in `uintptr_t`, so the sum wraps
modulo `2 ^ 64`); returns the aligned address, or `none` for `nullptr`. -/
def MemoryBlock.Peek (b : MemoryBlock) (size alignment : Nat) : Option Nat :=
  let aligned := AlignUp b.current_ptr alignment
  let new_ptr := (aligned + size) % U
  if b.block_end < new_ptr then none else some aligned

/-- `MemoryBlock::Seek(p)`: move the cursor to `p`. -/
def MemoryBlock.Seek (b : MemoryBlock) (p : Nat) : MemoryBlock :=
  { b with current_ptr := p }

/-- Insertion into `std::multiset<MemoryBlock>` keyed by
`MemoryBlock::operator<` (comparison of `Available()`); an element equal
to existing keys is inserted after them (upper bound), which is what
`insert`/`emplace` without a hint do. -/
def insertByAvail (b : MemoryBlock) : List MemoryBlock → List MemoryBlock
  | [] => [b]
  | c :: cs =>
    if b.Available < c.Available then b :: c :: cs else c :: insertByAvail b cs

/-- The probe loop of `Arena::TryAllocateFromExistingBlock`: walk the
multiset from `std::prev(blocks_.end())` (the block with the most
available space) down to `begin()`, stopping at the first block whose
`Peek` succeeds.  Returns the peeked pointer, the extracted block and
the remaining blocks.  The C++ `std::prev(blocks_.end())` requires the
collection to be nonempty (see `ProbeDefined`); on `[]` this model
returns `none`. -/
def tryAllocGo (size alignment : Nat) :
    List MemoryBlock → Option (Nat × MemoryBlock × List MemoryBlock)
  | [] => none
  | b :: rest =>
    match tryAllocGo size alignment rest with
    | some (p, c, rest') => some (p, c, b :: rest')
    | none =>
      match b.Peek size alignment with
      | some p => some (p, b, rest)
      | none => none

/-- `Arena::TryAllocateFromExistingBlock(size, alignment)`: on a
successful probe, extract the node, `Seek` its cursor to `p + size`
(pointer arithmetic, wraps modulo `2 ^ 64`), re-insert it, and return
the peeked pointer with the updated block collection. -/
def TryAllocateFromExistingBlock (blocks : List MemoryBlock) (size alignment : Nat) :
    Option (Nat × List MemoryBlock) :=
  match tryAllocGo size alignment blocks with
  | some (p, b, rest) => some (p, insertByAvail (b.Seek ((p + size) % U)) rest)
  | none => none

/-- Model of the backing allocator (mimalloc): a bump of fresh
addresses.  Every region it returns is disjoint from every region
returned before, placed at an address rounded up to the requested
alignment, and allocation fails (`std::bad_alloc`) once the address
range `[allocBase, allocLimit)` is exhausted.  `mi_usable_size(p)` is
modelled as the requested size (its minimal conforming value). -/
structure AllocatorState where
  nextFresh : Nat
deriving DecidableEq

/-- First address the model allocator hands out. -/
def allocBase : Nat := 4096

/-- Exclusive upper bound of the model allocator's address range. -/
def allocLimit : Nat := 2 ^ 48

/-- Round `n` up to a multiple of `alignment` (allocator-side placement
of a fresh region). -/
def alignTo (n alignment : Nat) : Nat :=
  if alignment = 0 then n else (n + alignment - 1) / alignment * alignment

/-- `mi_malloc_aligned(size, alignment)` in the model allocator. -/
def mi_malloc_aligned (a : AllocatorState) (size alignment : Nat) :
    Option (Nat × AllocatorState) :=
  let p := alignTo a.nextFresh alignment
  if p + size ≤ allocLimit then some (p, ⟨p + size⟩) else none

/-- `mi_malloc(size)`: returns `max_align_t`-aligned (16-byte) memory. -/
def mi_malloc (a : AllocatorState) (size : Nat) : Option (Nat × AllocatorState) :=
  mi_malloc_aligned a size 16

/-- The `Arena`: the `std::multiset<MemoryBlock> blocks_` (kept here as
a list in ascending `Available()` order) plus the allocator it draws
blocks from. -/
structure ArenaState where
  blocks : List MemoryBlock
  alloc : AllocatorState
deriving DecidableEq

/-- `Arena::CreateNewBlock(size)` (src/memory/arena.cc): `mi_malloc`,
capacity `mi_usable_size(p)`, then `blocks_.emplace(p, capacity)`;
`none` models a thrown `std::bad_alloc`. -/
def CreateNewBlock1 (st : ArenaState) (size : Nat) : Option ArenaState :=
  match mi_malloc st.alloc size with
  | none => none
  | some (p, a') => some ⟨insertByAvail ⟨p, p, p + size⟩ st.blocks, a'⟩

/-- `Arena::CreateNewBlock(size, alignment)` (src/memory/arena.cc):
`mi_malloc_aligned` variant. -/
def CreateNewBlock2 (st : ArenaState) (size alignment : Nat) : Option ArenaState :=
  match mi_malloc_aligned st.alloc size alignment with
  | none => none
  | some (p, a') => some ⟨insertByAvail ⟨p, p, p + size⟩ st.blocks, a'⟩

/-- The public constructor `Arena(initial_size)`: `CreateNewBlock` on an
empty block collection; `none` models a thrown `std::bad_alloc`. -/
def ArenaInit (initial_size : Nat) : Option ArenaState :=
  CreateNewBlock1 ⟨[], ⟨allocBase⟩⟩ initial_size

/-- `Arena::Allocate(size, alignment)` (memtable/arena.hh).  Result:
`none` models a propagated `std::bad_alloc`; `some (none, st)` models a
returned `nullptr`; `some (some p, st)` models a returned pointer `p`.
The second `TryAllocateFromExistingBlock` call failing corresponds to
the C++ `assert(p)` being violated and `nullptr` escaping in a release
build. -/
def Allocate (st : ArenaState) (size alignment : Nat) :
    Option (Option Nat × ArenaState) :=
  if size = 0 then some (none, st)
  else
    match TryAllocateFromExistingBlock st.blocks size alignment with
    | some (p, blocks') => some (some p, ⟨blocks', st.alloc⟩)
    | none =>
      match CreateNewBlock2 st size alignment with
      | none => none
      | some st' =>
        match TryAllocateFromExistingBlock st'.blocks size alignment with
        | some (p, blocks'') => some (some p, ⟨blocks'', st'.alloc⟩)
        | none => some (none, st')

/-- The move constructor `Arena(Arena&&)`: the target steals `blocks_`;
this is the state of the moved-from source, whose `std::multiset` is
left empty. -/
def movedFromSource (st : ArenaState) : ArenaState :=
  ⟨[], st.alloc⟩

/-- Precondition of the probe `std::prev(blocks_.end())` inside
`TryAllocateFromExistingBlock`: the block collection must be nonempty,
otherwise the C++ has undefined behaviour.  `Allocate(size > 0)`
reaches the probe unconditionally. -/
def ProbeDefined (st : ArenaState) : Prop :=
  st.blocks ≠ []

/-- Arena states reachable from the public constructor by sequences of
`Allocate` calls (a failed `Allocate` propagates `std::bad_alloc` and
produces no new state). -/
inductive Reachable : ArenaState → Prop
  | init (initial_size : Nat) (st : ArenaState) (hpos : 0 < initial_size)
      (h : ArenaInit initial_size = some st) : Reachable st
  | step (st st' : ArenaState) (size alignment : Nat) (r : Option Nat)
      (hst : Reachable st) (h : Allocate st size alignment = some (r, st')) :
      Reachable st'

/-- One `Allocate` call in a concrete run, threading the state and
recording the returned pointer; aborts if the call does not return a
pointer. -/
def allocStep (x : Option (List Nat × ArenaState)) (size alignment : Nat) :
    Option (List Nat × ArenaState) :=
  match x with
  | none => none
  | some (ps, st) =>
    match Allocate st size alignment with
    | some (some p, st') => some (ps ++ [p], st')
    | _ => none

/-- Concrete run for claim C1: `Arena arena(128); arena.Allocate(100, 1);
arena.Allocate(200, 1); arena.Allocate(SIZE_MAX, 1);`. -/
def c1run : Option (List Nat × ArenaState) :=
  allocStep
    (allocStep (allocStep ((ArenaInit 128).map (fun st => ([], st))) 100 1) 200 1)
    (2 ^ 64 - 1) 1

/-- Concrete run for claim C4: `Arena arena(128); arena.Allocate(100, 1);
arena.Allocate(16, 1); arena.Allocate(60, 1);`. -/
def c4run : Option (List Nat × ArenaState) :=
  allocStep
    (allocStep (allocStep ((ArenaInit 128).map (fun st => ([], st))) 100 1) 16 1)
    60 1

/-- The ordering invariant of `blocks_`: ascending by `Available()`
(the `std::multiset` order under `MemoryBlock::operator<`). -/
def SortedByAvail (l : List MemoryBlock) : Prop :=
  l.Pairwise (fun a b => a.Available ≤ b.Available)

/-! Cleanable / SharedCleanablePtr (util/cleanable.hh, util/cleanable.cc).

Cleanup functions are opaque side-effecting C functions; an invocation
`(*function)(arg1, arg2)` is modelled as the event `(function, arg1,
arg2)` appended to a trace, with the function pointer and the two
arguments abstracted as numbers. -/

/-- A fired cleanup invocation `(*function)(arg1, arg2)`. -/
abbrev Event := Nat × Nat × Nat

/-- `Cleanable::Cleanup`: `function` is `none` for a null pointer (the
state `std::exchange` leaves behind in a moved-from entry). -/
structure Cleanup where
  function : Option Nat
  arg1 : Nat
  arg2 : Nat
deriving DecidableEq

/-- `Cleanup::~Cleanup()`: fires iff `function != nullptr`. -/
def Cleanup.fire (c : Cleanup) : List Event :=
  match c.function with
  | none => []
  | some f => [(f, c.arg1, c.arg2)]

/-- A moved-from `Cleanup` (all three members exchanged with null). -/
def Cleanup.movedFrom : Cleanup :=
  ⟨none, 0, 0⟩

/-- The `Cleanable`: `std::vector<Cleanup> cleanups_` in registration
order. -/
structure Cleanable where
  cleanups : List Cleanup
deriving DecidableEq

/-- Destruction of the vector elements performed by
`cleanups_.clear()`: elements are destroyed first to last (the behaviour
of libstdc++ and libc++), each firing per `Cleanup::~Cleanup()`. -/
def fireAll : List Cleanup → List Event
  | [] => []
  | c :: cs => c.fire ++ fireAll cs

/-- `Cleanable::RegisterCleanup(func, arg1, arg2)`:
`cleanups_.emplace_back(func, arg1, arg2)` with `func != nullptr`
asserted. -/
def Cleanable.RegisterCleanup (c : Cleanable) (f a1 a2 : Nat) : Cleanable :=
  ⟨c.cleanups ++ [⟨some f, a1, a2⟩]⟩

/-- `Cleanable::DoCleanup()`: `cleanups_.clear()`, destroying (and so
firing) every entry in order; returns the cleared object and the fired
events. -/
def Cleanable.DoCleanup (c : Cleanable) : Cleanable × List Event :=
  (⟨[]⟩, fireAll c.cleanups)

/-- `Cleanable::Reset()`: calls `DoCleanup`. -/
def Cleanable.Reset (c : Cleanable) : Cleanable × List Event :=
  c.DoCleanup

/-- `Cleanable::~Cleanable()`: calls `DoCleanup`. -/
def Cleanable.destructor (c : Cleanable) : Cleanable × List Event :=
  c.DoCleanup

/-- `Cleanable::HasCleanups()`: `!cleanups_.empty()`. -/
def Cleanable.HasCleanups (c : Cleanable) : Bool :=
  !c.cleanups.isEmpty

/-- `Cleanable::DelegateCleanupsTo(other)` for `other != this`:
move-insert this chain at the end of `other`'s vector (leaving
moved-from entries behind), then `DoCleanup()` on this object.  Returns
(this afterwards, other afterwards, events fired by the call). -/
def Cleanable.DelegateCleanupsTo (c other : Cleanable) :
    Cleanable × Cleanable × List Event :=
  let other' : Cleanable := ⟨other.cleanups ++ c.cleanups⟩
  let cMoved : Cleanable := ⟨c.cleanups.map (fun _ => Cleanup.movedFrom)⟩
  (cMoved.DoCleanup.1, other', cMoved.DoCleanup.2)

/-- A `Cleanable` on which the entries `fs` have been registered in
order via `RegisterCleanup` (each entry a `(function, arg1, arg2)`
triple). -/
def registerList (fs : List Event) : Cleanable :=
  fs.foldl (fun c e => c.RegisterCleanup e.1 e.2.1 e.2.2) ⟨[]⟩

/-- `SharedCleanablePtr::Impl`: the heap `Cleanable` with its atomic
reference count.  `payload` is the chain registered on the shared
`Cleanable` itself; `alive` is false once the `Impl` has been deleted. -/
structure SharedState where
  ref_count : Nat
  alive : Bool
  payload : List Cleanup
deriving DecidableEq

/-- `Impl::Ref()`: `ref_count.fetch_add(1)`. -/
def Ref (s : SharedState) : SharedState :=
  { s with ref_count := s.ref_count + 1 }

/-- `Impl::Unref()`: `if (ref_count.fetch_sub(1) == 1) delete this;`,
deletion running the payload chain (`~Cleanable` → `DoCleanup`). -/
def Unref (s : SharedState) : SharedState × List Event :=
  if s.ref_count = 1 then (⟨0, false, []⟩, fireAll s.payload)
  else ({ s with ref_count := s.ref_count - 1 }, [])

/-- `SharedCleanablePtr::Allocate()`: a fresh `Impl` with
`ref_count = 1`; `payload` stands for the cleanups subsequently
registered on the shared `Cleanable`. -/
def AllocateImpl (payload : List Cleanup) : SharedState :=
  ⟨1, true, payload⟩

/-- `k` handle copies (each copy constructor / copy assignment calls
`Ref`). -/
def copyN : Nat → SharedState → SharedState
  | 0, s => s
  | n + 1, s => copyN n (Ref s)

/-- Resetting or destroying `n` handles one after another (each
`Reset()`/destructor calls `Unref` on the shared `Impl`); the handles
are interchangeable, so any destruction order is this sequence. -/
def UnrefN : Nat → SharedState → SharedState × List Event
  | 0, s => (s, [])
  | n + 1, s =>
    let r1 := Unref s
    let r2 := UnrefN n r1.1
    (r2.1, r1.2 ++ r2.2)

/-- An entry of a target `Cleanable`'s chain as seen by
`RegisterCopyWith`: an ordinary cleanup, or the `Impl::UnrefWrapper`
entry whose `arg1` is the shared `Impl`. -/
inductive TEntry where
  | ord (f a1 a2 : Nat)
  | unref
deriving DecidableEq

/-- Destroying one entry of a target chain: an ordinary entry fires its
event; the `UnrefWrapper` entry calls `Impl::Unref`. -/
def fireEntry : TEntry → SharedState → SharedState × List Event
  | TEntry.ord f a1 a2, s => (s, [(f, a1, a2)])
  | TEntry.unref, s => Unref s

/-- Firing a target `Cleanable` whose chain may contain `UnrefWrapper`
entries (its `DoCleanup`): entries are destroyed first to last. -/
def runTarget : List TEntry → SharedState → SharedState × List Event
  | [], s => (s, [])
  | e :: rest, s =>
    let r1 := fireEntry e s
    let r2 := runTarget rest r1.1
    (r2.1, r1.2 ++ r2.2)

/-- `SharedCleanablePtr::RegisterCopyWith(target)`: no-op when `ptr_`
is null; otherwise `ptr_->Ref()` then
`target->RegisterCleanup(&Impl::UnrefWrapper, ptr_, nullptr)`. -/
def RegisterCopyWith (hasPtr : Bool) (s : SharedState) (target : List TEntry) :
    SharedState × List TEntry :=
  if hasPtr then (Ref s, target ++ [TEntry.unref]) else (s, target)

/-! Slice hex encoding/decoding (src/util/slice.cc).  Byte sequences are
`List (Fin 256)`; the characters of a hex string are their `char`
codes, as `Nat`. -/

/-- Modelled from the spec: the digit table of the external encoder
`absl::BytesToHexString` — lowercase hexadecimal characters. -/
def toHexDigit (n : Nat) : Nat :=
  if n < 10 then 48 + n else 87 + n

/-- `absl::BytesToHexString` (external, behind `Slice::ToString(true)`):
each byte becomes two lowercase hex digits, high nibble first. -/
def bytesToHexString : List (Fin 256) → List Nat
  | [] => []
  | v :: rest => toHexDigit (v.val / 16) :: toHexDigit (v.val % 16) :: bytesToHexString rest

/-- `Slice::ToString(hex)`: hex encoding, or a plain copy of the
bytes. -/
def SliceToString (hex : Bool) (b : List (Fin 256)) : List Nat :=
  if hex then bytesToHexString b else b.map Fin.val

/-- Modelled from the spec: the hex-digit parser `fromHex` used by
`Slice::DecodeHex` is missing from the sources; per the spec it accepts
the hexadecimal characters 0-9 and A-F, lowercase a-f also accepted,
and reports failure otherwise (the C++ helper returns a negative
value, modelled as `none`). -/
def fromHex (c : Nat) : Option Nat :=
  if 48 ≤ c ∧ c ≤ 57 then some (c - 48)
  else if 97 ≤ c ∧ c ≤ 102 then some (c - 87)
  else if 65 ≤ c ∧ c ≤ 70 then some (c - 55)
  else none

/-- The loop of `Slice::DecodeHex`: two digits per byte,
`(h1 << 4) | h2`, then `static_cast<char>` (reduction modulo 256).  The
one-element case cannot be reached from `DecodeHex` (the length was
checked even) but keeps the recursion total. -/
def decodeHexLoop : List Nat → Option (List (Fin 256))
  | [] => some []
  | [_] => none
  | c1 :: c2 :: rest =>
    match fromHex c1 with
    | none => none
    | some h1 =>
      match fromHex c2 with
      | none => none
      | some h2 =>
        match decodeHexLoop rest with
        | none => none
        | some l => some (⟨(h1 <<< 4 ||| h2) % 256, Nat.mod_lt _ (by norm_num)⟩ :: l)

/-- `Slice::DecodeHex(result)`: fail (`return false`, modelled `none`)
on an odd length (`len & 0x01`), otherwise run the digit loop. -/
def DecodeHex (s : List Nat) : Option (List (Fin 256)) :=
  if s.length &&& 1 = 1 then none else decodeHexLoop s

/-! Helper lemmas. -/

theorem fireAll_append (l1 l2 : List Cleanup) :
    fireAll (l1 ++ l2) = fireAll l1 ++ fireAll l2 := by
  induction l1 with
  | nil => simp [fireAll]
  | cons c cs ih => simp [fireAll, ih]

theorem fireAll_movedFrom (l : List Cleanup) :
    fireAll (l.map (fun _ => Cleanup.movedFrom)) = [] := by
  induction l with
  | nil => rfl
  | cons c cs ih =>
    show Cleanup.movedFrom.fire ++ fireAll (cs.map (fun _ => Cleanup.movedFrom)) = []
    rw [ih]
    rfl

theorem fireAll_registered (fs : List Event) :
    fireAll (fs.map (fun e => (⟨some e.1, e.2.1, e.2.2⟩ : Cleanup))) = fs := by
  induction fs with
  | nil => rfl
  | cons e rest ih => simp [fireAll, Cleanup.fire, ih]

theorem registerList_cleanups_aux (fs : List Event) :
    ∀ c : Cleanable,
      (fs.foldl (fun c e => c.RegisterCleanup e.1 e.2.1 e.2.2) c).cleanups =
        c.cleanups ++ fs.map (fun e => (⟨some e.1, e.2.1, e.2.2⟩ : Cleanup)) := by
  induction fs with
  | nil => intro c; simp
  | cons e rest ih =>
    intro c
    rw [List.foldl_cons, ih]
    simp [Cleanable.RegisterCleanup]

theorem registerList_cleanups (fs : List Event) :
    (registerList fs).cleanups = fs.map (fun e => (⟨some e.1, e.2.1, e.2.2⟩ : Cleanup)) := by
  simp [registerList, registerList_cleanups_aux]

theorem copyN_eq (k : Nat) :
    ∀ s : SharedState, copyN k s = ⟨s.ref_count + k, s.alive, s.payload⟩ := by
  induction k with
  | zero => intro s; rfl
  | succ n ih =>
    intro s
    show copyN n (Ref s) = _
    rw [ih (Ref s)]
    simp [Ref, Nat.add_comm, Nat.add_assoc, Nat.add_left_comm]

theorem unrefN_succ (n : Nat) (s : SharedState) :
    UnrefN (n + 1) s =
      ((UnrefN n (Unref s).1).1, (Unref s).2 ++ (UnrefN n (Unref s).1).2) := rfl

theorem unref_of_gt_one (s : SharedState) (h : 1 < s.ref_count) :
    Unref s = ({ s with ref_count := s.ref_count - 1 }, []) := by
  rw [Unref, if_neg (by omega)]

theorem unrefN_partial (j : Nat) :
    ∀ (c : Nat) (p : List Cleanup), j ≤ c →
      UnrefN j ⟨c + 1, true, p⟩ = (⟨c + 1 - j, true, p⟩, []) := by
  induction j with
  | zero => intro c p _; rfl
  | succ n ih =>
    intro c p h
    rw [unrefN_succ, unref_of_gt_one ⟨c + 1, true, p⟩ (by simp; omega)]
    have h2 : UnrefN n ⟨c + 1 - 1, true, p⟩ = (⟨c - n, true, p⟩, []) := by
      have hcc : c + 1 - 1 = (c - 1) + 1 := by omega
      rw [hcc, ih (c - 1) p (by omega)]
      have : c - 1 + 1 - n = c - n := by omega
      rw [this]
    rw [h2]
    have : c - n = c + 1 - (n + 1) := by omega
    rw [this]
    rfl

theorem unrefN_last (c : Nat) :
    ∀ p : List Cleanup,
      UnrefN (c + 1) ⟨c + 1, true, p⟩ = (⟨0, false, []⟩, fireAll p) := by
  induction c with
  | zero =>
    intro p
    rw [unrefN_succ]
    have h1 : Unref ⟨1, true, p⟩ = (⟨0, false, []⟩, fireAll p) := by
      rw [Unref, if_pos rfl]
    rw [h1]
    simp [UnrefN]
  | succ n ih =>
    intro p
    rw [unrefN_succ, unref_of_gt_one ⟨n + 2, true, p⟩ (by simp)]
    have h2 : UnrefN (n + 1) ⟨n + 2 - 1, true, p⟩ = (⟨0, false, []⟩, fireAll p) := by
      have : n + 2 - 1 = n + 1 := rfl
      rw [this, ih p]
    rw [h2]
    rfl

theorem and_high_bits (x k : Nat) (hk : k ≤ 64) (hx : x < 2 ^ 64) :
    x &&& (2 ^ 64 - 2 ^ k) = x / 2 ^ k * 2 ^ k := by
  have hmask : (2 ^ (64 - k) - 1) <<< k = 2 ^ 64 - 2 ^ k := by
    rw [Nat.shiftLeft_eq, Nat.sub_mul, one_mul, ← Nat.pow_add]
    have h64 : 64 - k + k = 64 := by omega
    rw [h64]
  have hdiv : x / 2 ^ k * 2 ^ k = (x >>> k) <<< k := by
    rw [Nat.shiftLeft_eq, Nat.shiftRight_eq_div_pow]
  rw [← hmask, hdiv]
  apply Nat.eq_of_testBit_eq
  intro i
  rw [Nat.testBit_land, Nat.testBit_shiftLeft, Nat.testBit_shiftLeft,
    Nat.testBit_shiftRight, Nat.testBit_two_pow_sub_one]
  by_cases hik : k ≤ i
  · have hki : k + (i - k) = i := by omega
    rw [hki]
    by_cases hi64 : i < 64
    · have : i - k < 64 - k := by omega
      simp [hik, this]
    · have hfalse : x.testBit i = false :=
        Nat.testBit_lt_two_pow
          (lt_of_lt_of_le hx (Nat.pow_le_pow_right (by norm_num) (by omega)))
      simp [hfalse]
  · simp [hik]

theorem alignUp_pow2 (a k : Nat) (hk : k < 64) (ha : a + 2 ^ k ≤ 2 ^ 64) :
    AlignUp a (2 ^ k) = (a + 2 ^ k - 1) / 2 ^ k * 2 ^ k := by
  have hkpos : 0 < 2 ^ k := Nat.two_pow_pos k
  have hx : a + 2 ^ k - 1 < 2 ^ 64 := by omega
  have hmlt : 2 ^ 64 - 2 ^ k < 2 ^ 64 := by omega
  show ((a + 2 ^ k - 1) % U) &&& ((U - 2 ^ k) % U) = _
  rw [show U = 2 ^ 64 from rfl, Nat.mod_eq_of_lt hx, Nat.mod_eq_of_lt hmlt]
  exact and_high_bits (a + 2 ^ k - 1) k (le_of_lt hk) hx

theorem alignUp_eq_self (p k : Nat) (hk : k < 64) (hp : p % 2 ^ k = 0)
    (hb : p + 2 ^ k ≤ 2 ^ 64) : AlignUp p (2 ^ k) = p := by
  have hkpos : 0 < 2 ^ k := Nat.two_pow_pos k
  have hdvd : 2 ^ k ∣ p := Nat.dvd_of_mod_eq_zero hp
  rw [alignUp_pow2 p k hk hb]
  obtain ⟨m, hm⟩ := hdvd
  have h1 : (p + 2 ^ k - 1) / 2 ^ k = m := by
    have he : p + 2 ^ k - 1 = 2 ^ k * m + (2 ^ k - 1) := by omega
    rw [he, Nat.mul_add_div hkpos, Nat.div_eq_of_lt (by omega)]
    omega
  rw [h1, hm, Nat.mul_comm]

theorem alignTo_mod (n k : Nat) : alignTo n (2 ^ k) % 2 ^ k = 0 := by
  have hkpos : 0 < 2 ^ k := Nat.two_pow_pos k
  rw [alignTo, if_neg (by omega)]
  exact Nat.mul_mod_left _ _

theorem insertByAvail_ne_nil (b : MemoryBlock) (l : List MemoryBlock) :
    insertByAvail b l ≠ [] := by
  cases l with
  | nil => simp [insertByAvail]
  | cons c cs =>
    rw [insertByAvail]
    split <;> simp

theorem mem_insertByAvail (x b : MemoryBlock) (l : List MemoryBlock) :
    x ∈ insertByAvail b l ↔ x = b ∨ x ∈ l := by
  induction l with
  | nil => simp [insertByAvail]
  | cons c cs ih =>
    rw [insertByAvail]
    split
    · simp only [List.mem_cons]
    · simp only [List.mem_cons, ih]
      tauto

theorem insertByAvail_sorted (b : MemoryBlock) (l : List MemoryBlock)
    (h : SortedByAvail l) : SortedByAvail (insertByAvail b l) := by
  induction l with
  | nil => simp [insertByAvail, SortedByAvail]
  | cons c cs ih =>
    obtain ⟨hhead, htail⟩ := List.pairwise_cons.mp h
    rw [insertByAvail]
    split
    · rename_i hlt
      exact List.Pairwise.cons
        (fun x hx => by
          rcases List.mem_cons.mp hx with rfl | hmem
          · exact le_of_lt hlt
          · exact le_trans (le_of_lt hlt) (hhead x hmem))
        h
    · rename_i hge
      exact List.Pairwise.cons
        (fun x hx => by
          rcases (mem_insertByAvail x b cs).mp hx with rfl | hmem
          · exact le_of_not_lt hge
          · exact hhead x hmem)
        (ih htail)

theorem tryAllocGo_none (size alignment : Nat) (l : List MemoryBlock)
    (h : tryAllocGo size alignment l = none) :
    ∀ c ∈ l, MemoryBlock.Peek c size alignment = none := by
  induction l with
  | nil => intro c hc; cases hc
  | cons b rest ih =>
    rw [tryAllocGo] at h
    cases hgo : tryAllocGo size alignment rest with
    | some v =>
      obtain ⟨p, c, r⟩ := v
      rw [hgo] at h
      cases h
    | none =>
      rw [hgo] at h
      cases hpk : MemoryBlock.Peek b size alignment with
      | some p => rw [hpk] at h; cases h
      | none =>
        intro c hc
        rcases List.mem_cons.mp hc with rfl | hmem
        · exact hpk
        · exact ih hgo c hmem

theorem tryAllocGo_none_of_all (size alignment : Nat) (l : List MemoryBlock)
    (h : ∀ c ∈ l, MemoryBlock.Peek c size alignment = none) :
    tryAllocGo size alignment l = none := by
  induction l with
  | nil => rfl
  | cons b rest ih =>
    rw [tryAllocGo, ih (fun c hc => h c (List.mem_cons_of_mem b hc)),
      h b (List.mem_cons_self b rest)]

theorem tryAllocGo_split (size alignment : Nat) :
    ∀ (l : List MemoryBlock) (p : Nat) (c : MemoryBlock) (rest : List MemoryBlock),
      tryAllocGo size alignment l = some (p, c, rest) →
      ∃ pre post, l = pre ++ c :: post ∧ rest = pre ++ post ∧
        MemoryBlock.Peek c size alignment = some p ∧
        ∀ d ∈ post, MemoryBlock.Peek d size alignment = none := by
  intro l
  induction l with
  | nil => intro p c rest h; cases h
  | cons b l' ih =>
    intro p c rest h
    rw [tryAllocGo] at h
    cases hgo : tryAllocGo size alignment l' with
    | some v =>
      obtain ⟨p', c', rest'⟩ := v
      rw [hgo] at h
      injection h with h1
      injection h1 with h2 h3
      injection h3 with h4 h5
      obtain ⟨pre, post, hl, hr, hpk, hpost⟩ := ih p' c' rest' hgo
      refine ⟨b :: pre, post, ?_, ?_, ?_, hpost⟩
      · rw [hl, h4]
        rfl
      · rw [← h5, hr]
        rfl
      · rw [← h2, ← h4]
        exact hpk
    | none =>
      rw [hgo] at h
      cases hpk : MemoryBlock.Peek b size alignment with
      | some q =>
        rw [hpk] at h
        injection h with h1
        injection h1 with h2 h3
        injection h3 with h4 h5
        refine ⟨[], l', ?_, ?_, ?_, tryAllocGo_none size alignment l' hgo⟩
        · rw [← h4]
          rfl
        · rw [← h5]
          rfl
        · rw [← h2, ← h4]
          exact hpk
      | none => rw [hpk] at h; cases h

theorem tryAlloc_none_go (size alignment : Nat) (bs : List MemoryBlock)
    (h : TryAllocateFromExistingBlock bs size alignment = none) :
    tryAllocGo size alignment bs = none := by
  rw [TryAllocateFromExistingBlock] at h
  cases hgo : tryAllocGo size alignment bs with
  | some v => obtain ⟨p, b, rest⟩ := v; rw [hgo] at h; cases h
  | none => rfl

theorem tryAllocGo_insert_unique (size alignment p : Nat) (b : MemoryBlock)
    (l : List MemoryBlock)
    (hall : ∀ c ∈ l, MemoryBlock.Peek c size alignment = none)
    (hb : MemoryBlock.Peek b size alignment = some p) :
    tryAllocGo size alignment (insertByAvail b l) = some (p, b, l) := by
  induction l with
  | nil =>
    show tryAllocGo size alignment [b] = _
    rw [tryAllocGo]
    have : tryAllocGo size alignment [] = none := rfl
    rw [this, hb]
  | cons c cs ih =>
    rw [insertByAvail]
    split
    · rw [tryAllocGo, tryAllocGo_none_of_all size alignment (c :: cs) hall, hb]
    · rw [tryAllocGo, ih (fun d hd => hall d (List.mem_cons_of_mem c hd))]

theorem tryAlloc_sorted (size alignment : Nat) (bs : List MemoryBlock) (p : Nat)
    (bs' : List MemoryBlock) (hs : SortedByAvail bs)
    (h : TryAllocateFromExistingBlock bs size alignment = some (p, bs')) :
    SortedByAvail bs' := by
  rw [TryAllocateFromExistingBlock] at h
  cases hgo : tryAllocGo size alignment bs with
  | none => rw [hgo] at h; cases h
  | some v =>
    obtain ⟨q, c, rest⟩ := v
    rw [hgo] at h
    injection h with h1
    injection h1 with h2 h3
    rw [← h3]
    obtain ⟨pre, post, hl, hr, _, _⟩ := tryAllocGo_split size alignment bs q c rest hgo
    have hsub : rest.Sublist bs := by
      rw [hl, hr]
      exact List.Sublist.append_left (List.sublist_cons_self c post) pre
    exact insertByAvail_sorted _ rest (List.Pairwise.sublist hsub hs)

theorem tryAlloc_ne_nil (size alignment : Nat) (bs : List MemoryBlock) (p : Nat)
    (bs' : List MemoryBlock)
    (h : TryAllocateFromExistingBlock bs size alignment = some (p, bs')) :
    bs' ≠ [] := by
  rw [TryAllocateFromExistingBlock] at h
  cases hgo : tryAllocGo size alignment bs with
  | none => rw [hgo] at h; cases h
  | some v =>
    obtain ⟨q, c, rest⟩ := v
    rw [hgo] at h
    injection h with h1
    injection h1 with h2 h3
    rw [← h3]
    exact insertByAvail_ne_nil _ _

theorem createNewBlock2_blocks (st : ArenaState) (size alignment : Nat)
    (st' : ArenaState) (h : CreateNewBlock2 st size alignment = some st') :
    ∃ p, st'.blocks = insertByAvail ⟨p, p, p + size⟩ st.blocks := by
  rw [CreateNewBlock2] at h
  cases hm : mi_malloc_aligned st.alloc size alignment with
  | none => rw [hm] at h; cases h
  | some v =>
    obtain ⟨p, a'⟩ := v
    rw [hm] at h
    injection h with h1
    exact ⟨p, by rw [← h1]⟩

theorem allocate_inv (st : ArenaState) (size alignment : Nat) (r : Option Nat)
    (st' : ArenaState) (h : Allocate st size alignment = some (r, st')) :
    (size = 0 ∧ r = none ∧ st' = st) ∨
    (∃ p blocks', TryAllocateFromExistingBlock st.blocks size alignment = some (p, blocks') ∧
      r = some p ∧ st' = ⟨blocks', st.alloc⟩) ∨
    (∃ st1, TryAllocateFromExistingBlock st.blocks size alignment = none ∧
      CreateNewBlock2 st size alignment = some st1 ∧
      ((∃ q blocks'', TryAllocateFromExistingBlock st1.blocks size alignment = some (q, blocks'') ∧
          r = some q ∧ st' = ⟨blocks'', st1.alloc⟩) ∨
        (TryAllocateFromExistingBlock st1.blocks size alignment = none ∧
          r = none ∧ st' = st1))) := by
  rw [Allocate] at h
  by_cases hsz : size = 0
  · rw [if_pos hsz] at h
    injection h with h1
    injection h1 with h2 h3
    exact Or.inl ⟨hsz, h2.symm, h3.symm⟩
  · rw [if_neg hsz] at h
    cases h1 : TryAllocateFromExistingBlock st.blocks size alignment with
    | some v =>
      obtain ⟨p, blocks'⟩ := v
      rw [h1] at h
      have h' : some (some p, (⟨blocks', st.alloc⟩ : ArenaState)) = some (r, st') := h
      injection h' with ha
      injection ha with hb hc
      exact Or.inr (Or.inl ⟨p, blocks', rfl, hb.symm, hc.symm⟩)
    | none =>
      rw [h1] at h
      cases h2 : CreateNewBlock2 st size alignment with
      | none =>
        rw [h2] at h
        cases h
      | some st1 =>
        rw [h2] at h
        have h' : (match TryAllocateFromExistingBlock st1.blocks size alignment with
          | some (p, blocks'') =>
              some (some p, (⟨blocks'', st1.alloc⟩ : ArenaState))
          | none => some (none, st1)) = some (r, st') := h
        cases h3 : TryAllocateFromExistingBlock st1.blocks size alignment with
        | some w =>
          obtain ⟨q, blocks''⟩ := w
          rw [h3] at h'
          injection h' with ha
          injection ha with hb hc
          exact Or.inr (Or.inr ⟨st1, rfl, rfl,
            Or.inl ⟨q, blocks'', h3, hb.symm, hc.symm⟩⟩)
        | none =>
          rw [h3] at h'
          injection h' with ha
          injection ha with hb hc
          exact Or.inr (Or.inr ⟨st1, rfl, rfl, Or.inr ⟨h3, hb.symm, hc.symm⟩⟩)

theorem allocate_preserves_sorted (st : ArenaState) (size alignment : Nat)
    (r : Option Nat) (st' : ArenaState) (hs : SortedByAvail st.blocks)
    (h : Allocate st size alignment = some (r, st')) :
    SortedByAvail st'.blocks := by
  rcases allocate_inv st size alignment r st' h with
    ⟨_, _, rfl⟩ | ⟨p, blocks', h1, _, rfl⟩ |
    ⟨st1, h1, h2, ⟨q, blocks'', h3, _, hst⟩ | ⟨h3, _, hst⟩⟩
  · exact hs
  · exact tryAlloc_sorted size alignment st.blocks p blocks' hs h1
  · obtain ⟨p0, hb1⟩ := createNewBlock2_blocks st size alignment st1 h2
    have hs1 : SortedByAvail st1.blocks := by
      rw [hb1]
      exact insertByAvail_sorted _ _ hs
    rw [hst]
    exact tryAlloc_sorted size alignment st1.blocks q blocks'' hs1 h3
  · obtain ⟨p0, hb1⟩ := createNewBlock2_blocks st size alignment st1 h2
    rw [hst, hb1]
    exact insertByAvail_sorted _ _ hs

theorem allocate_preserves_ne_nil (st : ArenaState) (size alignment : Nat)
    (r : Option Nat) (st' : ArenaState) (hne : st.blocks ≠ [])
    (h : Allocate st size alignment = some (r, st')) :
    st'.blocks ≠ [] := by
  rcases allocate_inv st size alignment r st' h with
    ⟨_, _, rfl⟩ | ⟨p, blocks', h1, _, rfl⟩ |
    ⟨st1, h1, h2, ⟨q, blocks'', h3, _, hst⟩ | ⟨h3, _, hst⟩⟩
  · exact hne
  · exact tryAlloc_ne_nil size alignment st.blocks p blocks' h1
  · rw [hst]
    exact tryAlloc_ne_nil size alignment st1.blocks q blocks'' h3
  · obtain ⟨p0, hb1⟩ := createNewBlock2_blocks st size alignment st1 h2
    rw [hst, hb1]
    exact insertByAvail_ne_nil _ _

/-! Claim theorems. -/

/-- Claim C8: `Allocate(0, alignment)` returns a null pointer and leaves
the `ArenaState` (blocks, cursors, allocator) completely unchanged, for
every arena state and every alignment; hence repeated zero-size requests
stay no-ops. -/
theorem allocate_zero_is_noop :
    ∀ (st : ArenaState) (alignment : Nat), Allocate st 0 alignment = some (none, st) := by
  intro st alignment
  simp [Allocate]

/-- Claim C1, failing run: on `Arena arena(128)`, after
`Allocate(100, 1)` returns 4096 and `Allocate(200, 1)` returns 4224
(a fresh 200-byte block `[4224, 4424)`), the request
`Allocate(SIZE_MAX, 1)` is accepted by `Peek` because
`aligned + size` wraps modulo `2 ^ 64`, and it returns 4196 — a pointer
whose byte range `[4196, 4196 + SIZE_MAX)` contains the earlier
allocation at 4224.  The claimed disjointness of returned ranges is
violated. -/
theorem allocate_overflow_overlaps_previous :
    c1run.map (fun x => x.1) = some [4096, 4224, 4196] ∧
      4196 ≤ 4224 ∧ 4224 < 4196 + (2 ^ 64 - 1) := by
  refine ⟨by decide, by norm_num, by norm_num⟩

/-- Claim C4, counterexample: on `Arena arena(128)` (configured block
size 128), after `Allocate(100, 1)` and `Allocate(16, 1)` fill the
first block to 12 free bytes, `Allocate(60, 1)` cannot be satisfied and
creates a new block of exactly 60 bytes — smaller than the configured
block size 128, although the request 60 does not exceed the size any of
the claimed growth policies (Fixed 128, Linear ≥ 128, Exponential 256)
would prescribe.  No growth policy exists in the code: every new block
is sized to the request. -/
theorem c4_new_block_not_policy_sized :
    c4run.map (fun x => x.2.blocks.map (fun b => b.block_end - b.block_start)) =
        some [60, 128] ∧ 60 < 128 := by
  refine ⟨by decide, by norm_num⟩

/-- Claim C2: registering the entries `fs` on a fresh `Cleanable` and
then destroying or `Reset()`ing it fires exactly the registered
entries, once each, in registration order (oldest first); afterwards
`HasCleanups()` is false and a later `Reset()` or destruction fires
nothing. -/
theorem cleanups_fire_in_registration_order :
    ∀ fs : List Event,
      (Cleanable.Reset (registerList fs)).2 = fs ∧
      Cleanable.HasCleanups (Cleanable.Reset (registerList fs)).1 = false ∧
      (Cleanable.Reset (Cleanable.Reset (registerList fs)).1).2 = [] ∧
      (Cleanable.destructor (Cleanable.Reset (registerList fs)).1).2 = [] := by
  intro fs
  refine ⟨?_, rfl, rfl, rfl⟩
  show fireAll (registerList fs).cleanups = fs
  rw [registerList_cleanups, fireAll_registered]

/-- Claim C6: for distinct Cleanables `A` and `B`,
`A.DelegateCleanupsTo(B)` fires nothing, leaves `A` with
`HasCleanups() = false`, appends `A`'s entries after `B`'s pre-existing
entries preserving relative order; firing `B` afterwards runs `B`'s
entries then `A`'s, and firing `A` afterwards runs nothing. -/
theorem delegate_moves_chain_in_order :
    ∀ A B : Cleanable,
      (A.DelegateCleanupsTo B).2.2 = [] ∧
      Cleanable.HasCleanups (A.DelegateCleanupsTo B).1 = false ∧
      ((A.DelegateCleanupsTo B).2.1).cleanups = B.cleanups ++ A.cleanups ∧
      (Cleanable.Reset (A.DelegateCleanupsTo B).2.1).2 =
        fireAll B.cleanups ++ fireAll A.cleanups ∧
      (Cleanable.Reset (A.DelegateCleanupsTo B).1).2 = [] := by
  intro A B
  refine ⟨?_, rfl, rfl, ?_, rfl⟩
  · show fireAll (A.cleanups.map (fun _ => Cleanup.movedFrom)) = []
    exact fireAll_movedFrom A.cleanups
  · show fireAll (B.cleanups ++ A.cleanups) = _
    exact fireAll_append B.cleanups A.cleanups

/-- Claim C3: `Allocate()` then `k` copies give reference count
`k + 1`; releasing any `j ≤ k` of the `k + 1` interchangeable handles
fires nothing and keeps the shared `Impl` alive, and releasing all
`k + 1` fires the shared Cleanable's registered cleanups exactly once,
at the final release (the decrement from 1 to 0). -/
theorem shared_cleanup_fires_once_at_last_release :
    ∀ (payload : List Cleanup) (k : Nat),
      (copyN k (AllocateImpl payload)).ref_count = k + 1 ∧
      (∀ j, j ≤ k →
        (UnrefN j (copyN k (AllocateImpl payload))).2 = [] ∧
        (UnrefN j (copyN k (AllocateImpl payload))).1.alive = true) ∧
      (UnrefN (k + 1) (copyN k (AllocateImpl payload))).2 = fireAll payload ∧
      (UnrefN (k + 1) (copyN k (AllocateImpl payload))).1.alive = false := by
  intro payload k
  have hcopy : copyN k (AllocateImpl payload) = ⟨k + 1, true, payload⟩ := by
    rw [copyN_eq k (AllocateImpl payload)]
    simp [AllocateImpl, Nat.add_comm]
  refine ⟨by rw [hcopy], ?_, ?_, ?_⟩
  · intro j hj
    rw [hcopy, unrefN_partial j k payload hj]
    exact ⟨rfl, rfl⟩
  · rw [hcopy, unrefN_last k payload]
  · rw [hcopy, unrefN_last k payload]

/-- Claim C3, witness: with one registered cleanup and `k = 1` copy,
releasing one of the two handles fires nothing, and releasing both
fires the cleanup exactly once. -/
theorem shared_cleanup_fires_once_witness :
    (UnrefN 1 (copyN 1 (AllocateImpl [⟨some 5, 1, 2⟩]))).2 = [] ∧
      (UnrefN 2 (copyN 1 (AllocateImpl [⟨some 5, 1, 2⟩]))).2 =
        fireAll [⟨some 5, 1, 2⟩] := by
  have h := shared_cleanup_fires_once_at_last_release [⟨some 5, 1, 2⟩] 1
  exact ⟨(h.2.1 1 (by norm_num)).1, h.2.2.1⟩

/-- Claim C7: `RegisterCopyWith(target)` is a no-op on an empty handle;
otherwise it increments the reference count by exactly one and appends
an `UnrefWrapper` entry to `target`; when `target` is cleaned up, its
pre-existing entries fire strictly before the `Unref`, and the `Unref`
fires the shared Cleanable's own cleanups only if it is the last
reference (count 1 → 0), never while another sharer holds one. -/
theorem register_copy_with_defers_release :
    (∀ (s : SharedState) (t : List TEntry), RegisterCopyWith false s t = (s, t)) ∧
    (∀ (s : SharedState) (t : List TEntry),
      RegisterCopyWith true s t = (Ref s, t ++ [TEntry.unref])) ∧
    (∀ (es : List Event) (s : SharedState),
      runTarget (es.map (fun e => TEntry.ord e.1 e.2.1 e.2.2) ++ [TEntry.unref]) s =
        ((Unref s).1, es ++ (Unref s).2)) ∧
    (∀ s : SharedState,
      (Unref s).2 = if s.ref_count = 1 then fireAll s.payload else []) := by
  refine ⟨fun s t => rfl, fun s t => rfl, ?_, ?_⟩
  · intro es
    induction es with
    | nil =>
      intro s
      show (let r1 := fireEntry TEntry.unref s
            let r2 := runTarget [] r1.1
            (r2.1, r1.2 ++ r2.2)) = _
      simp [fireEntry, runTarget]
    | cons e rest ih =>
      intro s
      show (let r1 := fireEntry (TEntry.ord e.1 e.2.1 e.2.2) s
            let r2 := runTarget (rest.map (fun e => TEntry.ord e.1 e.2.1 e.2.2) ++
              [TEntry.unref]) r1.1
            (r2.1, r1.2 ++ r2.2)) = _
      simp only [fireEntry]
      rw [ih s]
      rfl
  · intro s
    by_cases h : s.ref_count = 1 <;> simp [Unref, h]

/-- Claim C5: the block collection is kept in ascending order of
available space as an invariant of every `Allocate` call — it holds for
the freshly constructed Arena, every `Allocate` re-establishes it
before returning (the chosen block is extracted, its cursor bumped and
the block re-inserted in order), and the probe tries blocks from the
most available space downwards: every block placed after the chosen one
in the order (at least as much available space) failed its `Peek`. -/
theorem arena_blocks_stay_sorted :
    (∀ (initial_size : Nat) (st : ArenaState),
      ArenaInit initial_size = some st → SortedByAvail st.blocks) ∧
    (∀ (st : ArenaState) (size alignment : Nat) (r : Option Nat) (st' : ArenaState),
      SortedByAvail st.blocks → Allocate st size alignment = some (r, st') →
      SortedByAvail st'.blocks) ∧
    (∀ (size alignment : Nat) (blocks : List MemoryBlock) (p : Nat)
      (c : MemoryBlock) (rest : List MemoryBlock),
      tryAllocGo size alignment blocks = some (p, c, rest) →
      ∃ pre post, blocks = pre ++ c :: post ∧ rest = pre ++ post ∧
        MemoryBlock.Peek c size alignment = some p ∧
        ∀ d ∈ post, MemoryBlock.Peek d size alignment = none) := by
  refine ⟨?_, ?_, ?_⟩
  · intro isz st h
    rw [ArenaInit, CreateNewBlock1] at h
    cases hm : mi_malloc (⟨[], ⟨allocBase⟩⟩ : ArenaState).alloc isz with
    | none => rw [hm] at h; cases h
    | some v =>
      obtain ⟨q, a'⟩ := v
      rw [hm] at h
      injection h with h1
      rw [← h1]
      show SortedByAvail (insertByAvail ⟨q, q, q + isz⟩ [])
      simp [insertByAvail, SortedByAvail]
  · intro st size alignment r st' hs h
    exact allocate_preserves_sorted st size alignment r st' hs h
  · intro size alignment blocks p c rest h
    exact tryAllocGo_split size alignment blocks p c rest h

/-- Claim C5, witness: the ordering invariant after one concrete
`Allocate(100, 1)` on a freshly constructed `Arena(128)`. -/
theorem arena_blocks_stay_sorted_witness :
    SortedByAvail [⟨4096, 4196, 4224⟩] :=
  arena_blocks_stay_sorted.2.1 ⟨[⟨4096, 4096, 4224⟩], ⟨4224⟩⟩ 100 1 (some 4096)
    ⟨[⟨4096, 4196, 4224⟩], ⟨4224⟩⟩ (by simp [SortedByAvail]) (by decide)

/-- Claim C10: every Arena state reachable from the public constructor
through `Allocate` calls holds at least one block, so the probe
`std::prev(blocks_.end())` never examines an empty collection; a
moved-from Arena violates this precondition — its block collection is
empty. -/
theorem arena_probe_always_defined :
    (∀ st : ArenaState, Reachable st → ProbeDefined st) ∧
    (∀ st : ArenaState, ¬ ProbeDefined (movedFromSource st)) := by
  constructor
  · intro st h
    induction h with
    | init isz st0 hpos hinit =>
      rw [ArenaInit, CreateNewBlock1] at hinit
      cases hm : mi_malloc (⟨[], ⟨allocBase⟩⟩ : ArenaState).alloc isz with
      | none => rw [hm] at hinit; cases hinit
      | some v =>
        obtain ⟨q, a'⟩ := v
        rw [hm] at hinit
        injection hinit with h1
        show st0.blocks ≠ []
        rw [← h1]
        exact insertByAvail_ne_nil _ _
    | step st st' size alignment r hst h ih =>
      exact allocate_preserves_ne_nil st size alignment r st' ih h
  · intro st hcontra
    exact hcontra rfl

/-- Claim C10, witness: the freshly constructed `Arena(128)` satisfies
the probe precondition, and its moved-from source does not. -/
theorem arena_probe_always_defined_witness :
    ProbeDefined ⟨[⟨4096, 4096, 4224⟩], ⟨4224⟩⟩ ∧
      ¬ ProbeDefined (movedFromSource ⟨[⟨4096, 4096, 4224⟩], ⟨4224⟩⟩) :=
  ⟨arena_probe_always_defined.1 _
      (Reachable.init 128 _ (by norm_num) (by decide)),
    arena_probe_always_defined.2 _⟩

theorem allocate_eq_new_block (st : ArenaState) (size alignment : Nat)
    (st1 : ArenaState) (q : Nat) (blocks'' : List MemoryBlock) (hsz : size ≠ 0)
    (h1 : TryAllocateFromExistingBlock st.blocks size alignment = none)
    (h2 : CreateNewBlock2 st size alignment = some st1)
    (h3 : TryAllocateFromExistingBlock st1.blocks size alignment = some (q, blocks'')) :
    Allocate st size alignment = some (some q, ⟨blocks'', st1.alloc⟩) := by
  rw [Allocate, if_neg hsz, h1, h2]
  show (match TryAllocateFromExistingBlock st1.blocks size alignment with
    | some (p, blocks'') => some (some p, (⟨blocks'', st1.alloc⟩ : ArenaState))
    | none => some (none, st1)) = some (some q, (⟨blocks'', st1.alloc⟩ : ArenaState))
  rw [h3]

/-- Claim C4, amended: when no existing block can satisfy a request of
`size > 0` (power-of-two alignment), the Arena creates one dedicated
new block of exactly the requested size at the allocator's next aligned
address, serves the request from it, and leaves every pre-existing
block untouched — there is no growth policy and no running block
size. -/
theorem dedicated_block_exact_fit :
    ∀ (st : ArenaState) (size k : Nat),
      0 < size → k < 64 →
      TryAllocateFromExistingBlock st.blocks size (2 ^ k) = none →
      alignTo st.alloc.nextFresh (2 ^ k) + size ≤ allocLimit →
      Allocate st size (2 ^ k) =
        some (some (alignTo st.alloc.nextFresh (2 ^ k)),
          ⟨insertByAvail
              ⟨alignTo st.alloc.nextFresh (2 ^ k),
                alignTo st.alloc.nextFresh (2 ^ k) + size,
                alignTo st.alloc.nextFresh (2 ^ k) + size⟩ st.blocks,
            ⟨alignTo st.alloc.nextFresh (2 ^ k) + size⟩⟩) := by
  intro st size k hsz hk hfail hroom
  obtain ⟨p, hp⟩ : ∃ q, alignTo st.alloc.nextFresh (2 ^ k) = q := ⟨_, rfl⟩
  rw [hp] at hroom ⊢
  have hroom48 : p + size ≤ 2 ^ 48 := hroom
  have h4864 : (2 : Nat) ^ 48 < 2 ^ 64 := by norm_num
  have hlt : p + size < U := by
    show p + size < 2 ^ 64
    omega
  have hpmod : p % 2 ^ k = 0 := by
    rw [← hp]
    exact alignTo_mod _ _
  have hbound : p + 2 ^ k ≤ 2 ^ 64 := by
    have h2k : (2 : Nat) ^ k ≤ 2 ^ 63 := Nat.pow_le_pow_right (by norm_num) (by omega)
    have h4863 : (2 : Nat) ^ 48 + 2 ^ 63 ≤ 2 ^ 64 := by norm_num
    omega
  have ha : AlignUp p (2 ^ k) = p := alignUp_eq_self p k hk hpmod hbound
  have hpeek : MemoryBlock.Peek ⟨p, p, p + size⟩ size (2 ^ k) = some p := by
    show (if p + size < (AlignUp p (2 ^ k) + size) % U then none
      else some (AlignUp p (2 ^ k))) = some p
    rw [ha, Nat.mod_eq_of_lt hlt, if_neg (lt_irrefl _)]
  have hall : ∀ c ∈ st.blocks, MemoryBlock.Peek c size (2 ^ k) = none :=
    tryAllocGo_none size (2 ^ k) st.blocks (tryAlloc_none_go size (2 ^ k) st.blocks hfail)
  have hgo := tryAllocGo_insert_unique size (2 ^ k) p ⟨p, p, p + size⟩ st.blocks hall hpeek
  have hseek : MemoryBlock.Seek ⟨p, p, p + size⟩ ((p + size) % U) =
      ⟨p, p + size, p + size⟩ := by
    show (⟨p, (p + size) % U, p + size⟩ : MemoryBlock) = _
    rw [Nat.mod_eq_of_lt hlt]
  have htry2 : TryAllocateFromExistingBlock
      (insertByAvail ⟨p, p, p + size⟩ st.blocks) size (2 ^ k) =
      some (p, insertByAvail ⟨p, p + size, p + size⟩ st.blocks) := by
    rw [TryAllocateFromExistingBlock, hgo]
    show some (p, insertByAvail
      (MemoryBlock.Seek ⟨p, p, p + size⟩ ((p + size) % U)) st.blocks) =
      some (p, insertByAvail ⟨p, p + size, p + size⟩ st.blocks)
    rw [hseek]
  have hmi : mi_malloc_aligned st.alloc size (2 ^ k) =
      some (p, ⟨p + size⟩) := by
    show (if alignTo st.alloc.nextFresh (2 ^ k) + size ≤ allocLimit then
        some (alignTo st.alloc.nextFresh (2 ^ k),
          (⟨alignTo st.alloc.nextFresh (2 ^ k) + size⟩ : AllocatorState))
      else none) = some (p, ⟨p + size⟩)
    rw [hp, if_pos hroom]
  have hcreate : CreateNewBlock2 st size (2 ^ k) =
      some ⟨insertByAvail ⟨p, p, p + size⟩ st.blocks, ⟨p + size⟩⟩ := by
    rw [CreateNewBlock2, hmi]
  exact allocate_eq_new_block st size (2 ^ k)
    ⟨insertByAvail ⟨p, p, p + size⟩ st.blocks, ⟨p + size⟩⟩ p
    (insertByAvail ⟨p, p + size, p + size⟩ st.blocks) (by omega) hfail hcreate htry2

/-- Claim C4, witness: the dedicated 60-byte block created by the run
of the counterexample, via the amended theorem at its concrete
state. -/
theorem dedicated_block_exact_fit_witness :
    Allocate ⟨[⟨4096, 4212, 4224⟩], ⟨4224⟩⟩ 60 (2 ^ 0) =
      some (some 4224, ⟨[⟨4224, 4284, 4284⟩, ⟨4096, 4212, 4224⟩], ⟨4284⟩⟩) :=
  (dedicated_block_exact_fit ⟨[⟨4096, 4212, 4224⟩], ⟨4224⟩⟩ 60 0 (by norm_num)
    (by norm_num) (by decide) (by decide)).trans (by decide)

theorem bytesToHexString_length (b : List (Fin 256)) :
    (bytesToHexString b).length = 2 * b.length := by
  induction b with
  | nil => rfl
  | cons v rest ih =>
    show (toHexDigit (v.val / 16) :: toHexDigit (v.val % 16) ::
      bytesToHexString rest).length = 2 * (v :: rest).length
    simp only [List.length_cons, ih]
    omega

theorem fromHex_toHexDigit : ∀ n : Fin 16, fromHex (toHexDigit n.val) = some n.val := by
  decide

theorem nibble_recombine (a b : Nat) (ha : a < 16) (hb : b < 16) :
    (a <<< 4 ||| b) % 256 = a * 16 + b := by
  have hfin : ∀ h1 h2 : Fin 16, (h1.val <<< 4 ||| h2.val) % 256 = h1.val * 16 + h2.val := by
    decide
  exact hfin ⟨a, ha⟩ ⟨b, hb⟩

theorem decodeHexLoop_encode (b : List (Fin 256)) :
    decodeHexLoop (bytesToHexString b) = some b := by
  induction b with
  | nil => rfl
  | cons v rest ih =>
    have hv256 := v.isLt
    have hd : v.val / 16 < 16 := by omega
    have hm : v.val % 16 < 16 := by omega
    have h1 : fromHex (toHexDigit (v.val / 16)) = some (v.val / 16) :=
      fromHex_toHexDigit ⟨v.val / 16, hd⟩
    have h2 : fromHex (toHexDigit (v.val % 16)) = some (v.val % 16) :=
      fromHex_toHexDigit ⟨v.val % 16, hm⟩
    have hv : ((v.val / 16) <<< 4 ||| v.val % 16) % 256 = v.val := by
      rw [nibble_recombine (v.val / 16) (v.val % 16) hd hm]
      omega
    show decodeHexLoop (toHexDigit (v.val / 16) :: toHexDigit (v.val % 16) ::
      bytesToHexString rest) = some (v :: rest)
    rw [decodeHexLoop, h1, h2, ih]
    simp only [Option.some.injEq, List.cons.injEq]
    exact ⟨Fin.ext hv, trivial⟩

theorem decodeHexLoop_badchar :
    ∀ s : List Nat, (∃ c ∈ s, fromHex c = none) → decodeHexLoop s = none := by
  have aux : ∀ (n : Nat) (s : List Nat), s.length ≤ n →
      (∃ c ∈ s, fromHex c = none) → decodeHexLoop s = none := by
    intro n
    induction n with
    | zero =>
      intro s hlen hex
      obtain ⟨c, hc, _⟩ := hex
      have hnil : s = [] := List.length_eq_zero.mp (Nat.le_zero.mp hlen)
      rw [hnil] at hc
      cases hc
    | succ n ih =>
      intro s hlen hex
      rcases s with _ | ⟨c1, s1⟩
      · obtain ⟨c, hc, _⟩ := hex
        cases hc
      rcases s1 with _ | ⟨c2, rest⟩
      · rfl
      cases h1 : fromHex c1 with
      | none => rw [decodeHexLoop, h1]
      | some v1 =>
        cases h2 : fromHex c2 with
        | none => rw [decodeHexLoop, h1, h2]
        | some v2 =>
          have hrest : ∃ c ∈ rest, fromHex c = none := by
            obtain ⟨c, hc, hcn⟩ := hex
            rcases List.mem_cons.mp hc with rfl | hc2
            · rw [h1] at hcn
              cases hcn
            · rcases List.mem_cons.mp hc2 with rfl | hc3
              · rw [h2] at hcn
                cases hcn
              · exact ⟨c, hc3, hcn⟩
          have hlen' : rest.length ≤ n := by
            simp only [List.length_cons] at hlen
            omega
          rw [decodeHexLoop, h1, h2, ih rest hlen' hrest]
  intro s hex
  exact aux s.length s (Nat.le_refl _) hex

/-- Claim C9: hex round-trip — decoding the hex string produced by
`ToString(hex = true)` recovers exactly the original byte sequence, and
`DecodeHex` reports failure on any string of odd length or containing
any character that is not a hexadecimal digit. -/
theorem hex_roundtrip_and_failure :
    (∀ b : List (Fin 256), DecodeHex (SliceToString true b) = some b) ∧
    (∀ s : List Nat, s.length % 2 = 1 → DecodeHex s = none) ∧
    (∀ s : List Nat, (∃ c ∈ s, fromHex c = none) → DecodeHex s = none) := by
  refine ⟨?_, ?_, ?_⟩
  · intro b
    have hlen : (bytesToHexString b).length &&& 1 = 0 := by
      rw [Nat.and_one_is_mod, bytesToHexString_length]
      omega
    show DecodeHex (bytesToHexString b) = some b
    rw [DecodeHex, if_neg (by simp [hlen]), decodeHexLoop_encode]
  · intro s hodd
    rw [DecodeHex, if_pos (show s.length &&& 1 = 1 by rw [Nat.and_one_is_mod]; exact hodd)]
  · intro s hex
    by_cases hodd : s.length % 2 = 1
    · rw [DecodeHex,
        if_pos (show s.length &&& 1 = 1 by rw [Nat.and_one_is_mod]; exact hodd)]
    · rw [DecodeHex,
        if_neg (show ¬ s.length &&& 1 = 1 by rw [Nat.and_one_is_mod]; exact hodd),
        decodeHexLoop_badchar s hex]

/-- Claim C9, witness: the byte 0xAB round-trips through its hex string,
a one-character string fails on length, and a string of two non-hex
characters (char code 122) fails on the digit check. -/
theorem hex_roundtrip_witness :
    DecodeHex (SliceToString true [(171 : Fin 256)]) = some [(171 : Fin 256)] ∧
      DecodeHex [97] = none ∧ DecodeHex [122, 122] = none :=
  ⟨hex_roundtrip_and_failure.1 [171],
    hex_roundtrip_and_failure.2.1 [97] (by decide),
    hex_roundtrip_and_failure.2.2 [122, 122] ⟨122, by decide, by decide⟩⟩

end Badger
